import Mathlib

/-!
# Verification of resify's date-range and linkify subsystems

Shallow embedding of the Go program `github.com/nilium/resify`:
* `rtype/rtype.go` — the `DateRange` parser/serializer (`dateLayouts.Parse`,
  `parseFromTo`, `NewDateRange`, `DateRange.MarshalYAML`);
* `main.go` — the link notation parser (`parseLink`), the link renderer
  (`renderLink`) and the text linkifier (`linkify`).

Strings are modelled as `List Char` (Go strings are byte slices, but every
operation the program performs on them — prefix/suffix tests against ASCII
delimiters, trimming of ASCII whitespace, splitting on an ASCII space,
rune-wise regular-expression matching — acts identically on the rune
sequence; SHA-1 hashing is applied to the UTF-8 bytes, which the model
recomputes from the characters).  Machine integers are `Nat` with explicit
`% 2 ^ 32` where Go's `uint32` overflow matters (SHA-1).  Fallible code
returns `Option`/`Except`.
-/

namespace Resify

/-! ## Character and digit helpers -/

/-- Decimal digit character for `n % 10` (`'0'`..`'9'`). -/
def dig (n : Nat) : Char := Char.ofNat (48 + n % 10)

/-- ASCII decimal digit test (Go `'0' <= c && c <= '9'`). -/
def isDigitChar (c : Char) : Bool := 48 ≤ c.toNat && c.toNat ≤ 57

/-- Numeric value of an ASCII digit character. -/
def digVal (c : Char) : Nat := c.toNat - 48

/-- ASCII upper-case letter test. -/
def isUpperAZ (c : Char) : Bool := 65 ≤ c.toNat && c.toNat ≤ 90

/-! ## The `GoTime` model

`time.Time` restricted to what the program stores: calendar fields plus the
zone abbreviation.  All zones that `rtype.go` can produce with its layout
list carry offset 0 in the model (a fabricated zone from an abbreviation has
offset 0 in Go, and the zoneless layouts yield UTC), so the instant is
determined by the fields alone. -/

structure GoTime where
  year : Nat
  month : Nat
  day : Nat
  hour : Nat
  minute : Nat
  sec : Nat
  zone : String
  deriving DecidableEq

/-- Go's zero `time.Time`: January 1, year 1, 00:00:00 UTC. -/
def zeroTime : GoTime := ⟨1, 1, 1, 0, 0, 0, "UTC"⟩

/-- `time.Time.IsZero`: the instant equals the zero time.  All modelled zones
have offset 0, so this is a comparison of the calendar fields. -/
def GoTime.isZero (t : GoTime) : Bool :=
  t.year == 1 && t.month == 1 && t.day == 1 &&
  t.hour == 0 && t.minute == 0 && t.sec == 0

/-! ## Field parsers for the supported layouts (model of Go `time.Parse`) -/

/-- Go `getnum(value, true)` for a two-digit zero-padded field: exactly two
ASCII digits. -/
def getnum2 : List Char → Option (Nat × List Char)
  | c1 :: c2 :: rest =>
    if isDigitChar c1 && isDigitChar c2 then
      some (digVal c1 * 10 + digVal c2, rest)
    else none
  | _ => none

/-- Go `getnum(value, false)` as used for the hour field `15`: one digit, or
two when the second character is also a digit. -/
def getnum12 : List Char → Option (Nat × List Char)
  | c1 :: c2 :: rest =>
    if isDigitChar c1 then
      if isDigitChar c2 then some (digVal c1 * 10 + digVal c2, rest)
      else some (digVal c1, c2 :: rest)
    else none
  | [c1] => if isDigitChar c1 then some (digVal c1, []) else none
  | [] => none

/-- The year field `2006`: exactly four ASCII digits. -/
def getnum4 : List Char → Option (Nat × List Char)
  | c1 :: c2 :: c3 :: c4 :: rest =>
    if isDigitChar c1 && isDigitChar c2 && isDigitChar c3 && isDigitChar c4 then
      some (((digVal c1 * 10 + digVal c2) * 10 + digVal c3) * 10 + digVal c4, rest)
    else none
  | _ => none

/-- A literal layout character must match the input exactly. -/
def litc (c : Char) : List Char → Option (List Char)
  | d :: rest => if d = c then some rest else none
  | [] => none

/-- Zone abbreviation for the `MST` layout element.  Go's `parseTimeZone`
accepts several shapes; the model covers the three-upper-case-letter form
(the shape every abbreviation the repository works with has). -/
def zoneAbbr : List Char → Option (String × List Char)
  | c1 :: c2 :: c3 :: rest =>
    if isUpperAZ c1 && isUpperAZ c2 && isUpperAZ c3 then
      some (String.mk [c1, c2, c3], rest)
    else none
  | _ => none

/-- The layout must consume the whole value (Go: "extra text" error). -/
def atEnd : List Char → Option Unit
  | [] => some ()
  | _ :: _ => none

/-- Gregorian leap year (Go `isLeap`). -/
def isLeap (y : Nat) : Bool := y % 4 == 0 && (y % 100 != 0 || y % 400 == 0)

/-- Days in a month (Go `daysIn`). -/
def daysIn (mo y : Nat) : Nat :=
  if mo == 2 then (if isLeap y then 29 else 28)
  else if mo == 4 || mo == 6 || mo == 9 || mo == 11 then 30
  else 31

/-- Go `time.Parse`'s range validation of the collected fields. -/
def validDate (y mo d h mi s : Nat) : Bool :=
  1 ≤ mo && mo ≤ 12 && 1 ≤ d && d ≤ daysIn mo y && h ≤ 23 && mi ≤ 59 && s ≤ 59

/-- Common `2006-01-02` prefix of the date layouts. -/
def parseYMD (v : List Char) : Option (Nat × Nat × Nat × List Char) := do
  let (y, v) ← getnum4 v
  let v ← litc '-' v
  let (mo, v) ← getnum2 v
  let v ← litc '-' v
  let (d, v) ← getnum2 v
  pure (y, mo, d, v)

/-- Model of Go `time.Parse(layout, value)` for the seven layout strings in
`rtype.go`'s `layouts` list (any other layout string yields `none`; the
program never supplies one).  A layout without a zone element produces a UTC
time, exactly as in Go. -/
def timeParse (layout value : String) : Option GoTime :=
  let v := value.data
  if layout = "2006-01-02 15:04:05 MST" then do
    let (y, mo, d, v) ← parseYMD v
    let v ← litc ' ' v
    let (h, v) ← getnum12 v
    let v ← litc ':' v
    let (mi, v) ← getnum2 v
    let v ← litc ':' v
    let (s, v) ← getnum2 v
    let v ← litc ' ' v
    let (z, v) ← zoneAbbr v
    let _ ← atEnd v
    if validDate y mo d h mi s then some ⟨y, mo, d, h, mi, s, z⟩ else none
  else if layout = "2006-01-02 15:04:05" then do
    let (y, mo, d, v) ← parseYMD v
    let v ← litc ' ' v
    let (h, v) ← getnum12 v
    let v ← litc ':' v
    let (mi, v) ← getnum2 v
    let v ← litc ':' v
    let (s, v) ← getnum2 v
    let _ ← atEnd v
    if validDate y mo d h mi s then some ⟨y, mo, d, h, mi, s, "UTC"⟩ else none
  else if layout = "2006-01-02 15:04 MST" then do
    let (y, mo, d, v) ← parseYMD v
    let v ← litc ' ' v
    let (h, v) ← getnum12 v
    let v ← litc ':' v
    let (mi, v) ← getnum2 v
    let v ← litc ' ' v
    let (z, v) ← zoneAbbr v
    let _ ← atEnd v
    if validDate y mo d h mi 0 then some ⟨y, mo, d, h, mi, 0, z⟩ else none
  else if layout = "2006-01-02 15:04" then do
    let (y, mo, d, v) ← parseYMD v
    let v ← litc ' ' v
    let (h, v) ← getnum12 v
    let v ← litc ':' v
    let (mi, v) ← getnum2 v
    let _ ← atEnd v
    if validDate y mo d h mi 0 then some ⟨y, mo, d, h, mi, 0, "UTC"⟩ else none
  else if layout = "2006-01-02" then do
    let (y, mo, d, v) ← parseYMD v
    let _ ← atEnd v
    if validDate y mo d 0 0 0 then some ⟨y, mo, d, 0, 0, 0, "UTC"⟩ else none
  else if layout = "2006-01" then do
    let (y, v) ← getnum4 v
    let v ← litc '-' v
    let (mo, v) ← getnum2 v
    let _ ← atEnd v
    if validDate y mo 1 0 0 0 then some ⟨y, mo, 1, 0, 0, 0, "UTC"⟩ else none
  else if layout = "2006" then do
    let (y, v) ← getnum4 v
    let _ ← atEnd v
    if validDate y 1 1 0 0 0 then some ⟨y, 1, 1, 0, 0, 0, "UTC"⟩ else none
  else none

/-! ## Formatting (model of Go `time.Time.Format` for the same layouts) -/

/-- Zero-padded two-digit decimal (Go `appendInt(b, n, 2)`, for the field
values the program produces, all below 100). -/
def pad2 (n : Nat) : List Char := [dig (n / 10), dig (n % 10)]

/-- Zero-padded four-digit decimal (Go `appendInt(b, year, 4)` for years up
to 9999; wider years fall back to all decimal digits). -/
def pad4 (n : Nat) : List Char :=
  if n ≤ 9999 then [dig (n / 1000), dig (n / 100), dig (n / 10), dig n]
  else Nat.toDigits 10 n

/-- The `2006-01-02` date prefix of a formatted time. -/
def fmtYMD (t : GoTime) : List Char :=
  pad4 t.year ++ '-' :: (pad2 t.month ++ '-' :: pad2 t.day)

/-- Model of `time.Time.Format` for the seven layouts of `rtype.go`. -/
def timeFormat (layout : String) (t : GoTime) : String :=
  if layout = "2006-01-02 15:04:05 MST" then
    String.mk (fmtYMD t ++ ' ' :: (pad2 t.hour ++ ':' :: (pad2 t.minute ++ ':' ::
      (pad2 t.sec ++ ' ' :: t.zone.data))))
  else if layout = "2006-01-02 15:04:05" then
    String.mk (fmtYMD t ++ ' ' :: (pad2 t.hour ++ ':' :: (pad2 t.minute ++ ':' :: pad2 t.sec)))
  else if layout = "2006-01-02 15:04 MST" then
    String.mk (fmtYMD t ++ ' ' :: (pad2 t.hour ++ ':' :: (pad2 t.minute ++ ' ' :: t.zone.data)))
  else if layout = "2006-01-02 15:04" then
    String.mk (fmtYMD t ++ ' ' :: (pad2 t.hour ++ ':' :: pad2 t.minute))
  else if layout = "2006-01-02" then
    String.mk (fmtYMD t)
  else if layout = "2006-01" then
    String.mk (pad4 t.year ++ '-' :: pad2 t.month)
  else if layout = "2006" then
    String.mk (pad4 t.year)
  else ""

/-! ## `dateLayouts.Parse`, `DateRange`, `parseFromTo`, `NewDateRange` -/

/-- The fixed layout list of `rtype.go`, most specific first. -/
def layouts : List String :=
  ["2006-01-02 15:04:05 MST",
   "2006-01-02 15:04:05",
   "2006-01-02 15:04 MST",
   "2006-01-02 15:04",
   "2006-01-02",
   "2006-01",
   "2006"]

/-- `dateLayouts.Parse`: try each layout in order; the first success wins and
is returned together with the layout; if all fail the Go code returns the
zero time, the empty layout and the last error (modelled as `none`). -/
def dateLayoutsParse (ls : List String) (value : String) : Option (GoTime × String) :=
  match ls with
  | [] => none
  | l :: rest =>
    match timeParse l value with
    | some t => some (t, l)
    | none => dateLayoutsParse rest value

/-- `rtype.DateRange`: two endpoints with their retained parse layouts. -/
structure DateRange where
  From : GoTime
  To : GoTime
  fromLayout : String
  toLayout : String
  deriving DecidableEq

/-- The zero value of `DateRange` (fresh receiver in `NewDateRange`). -/
def zeroDateRange : DateRange := ⟨zeroTime, zeroTime, "", ""⟩

/-- Per-endpoint failure: `errUndefined` for an empty input string, or a
`time.Parse` failure for a non-empty one. -/
inductive EndErr | undefined | parseFail
  deriving DecidableEq

/-- Model of `(*DateRange).parseFromTo` on a non-nil receiver `d`.  Each
endpoint with a non-empty string is parsed (a failure stores the zero time
and the empty layout, exactly as the multiple-assignment from
`layouts.Parse` does); an empty string leaves the receiver's field alone and
records `errUndefined`.  The updated range is written back unconditionally;
an error is returned iff both endpoints failed and not both merely because
they were empty. -/
def parseFromTo (d : DateRange) (fs ts : String) :
    DateRange × Option (EndErr × EndErr) :=
  let (rFrom, rFromLayout, fromErr) :=
    if fs = "" then (d.From, d.fromLayout, some EndErr.undefined)
    else
      match dateLayoutsParse layouts fs with
      | some (t, l) => (t, l, none)
      | none => (zeroTime, "", some EndErr.parseFail)
  let (rTo, rToLayout, toErr) :=
    if ts = "" then (d.To, d.toLayout, some EndErr.undefined)
    else
      match dateLayoutsParse layouts ts with
      | some (t, l) => (t, l, none)
      | none => (zeroTime, "", some EndErr.parseFail)
  let r : DateRange := ⟨rFrom, rTo, rFromLayout, rToLayout⟩
  match fromErr, toErr with
  | some fe, some te =>
    if fe = EndErr.undefined ∧ te = EndErr.undefined then (r, none)
    else (r, some (fe, te))
  | _, _ => (r, none)

/-- `rtype.NewDateRange`: `parseFromTo` on a fresh zero receiver, returning
the (possibly partially populated) range together with the error. -/
def NewDateRange (fs ts : String) : DateRange × Option (EndErr × EndErr) :=
  parseFromTo zeroDateRange fs ts

/-- Model of `DateRange.MarshalYAML`: each non-zero endpoint is formatted
with its retained layout (defaulting to `layouts[4]`, the plain date, when
the layout is empty); if both rendered strings are empty the method returns
`nil` (modelled as `none`). -/
def marshalYAML (d : DateRange) : Option (String × String) :=
  let fromS := if d.From.isZero then ""
    else timeFormat (if d.fromLayout = "" then layouts.getD 4 "" else d.fromLayout) d.From
  let toS := if d.To.isZero then ""
    else timeFormat (if d.toLayout = "" then layouts.getD 4 "" else d.toLayout) d.To
  if fromS = "" ∧ toS = "" then none else some (fromS, toS)

/-- Shape of a zone abbreviation the model can parse: exactly three ASCII
upper-case letters. -/
def zone3ok (z : String) : Bool :=
  match z.data with
  | [c1, c2, c3] => isUpperAZ c1 && isUpperAZ c2 && isUpperAZ c3
  | _ => false

/-- A timestamp is exactly representable at a layout's precision when its
fields are in range, its year fits the four-digit year field, every field
below the layout's precision is at its parse default, and its zone is what
parsing under that layout can produce. -/
def exactAt (layout : String) (t : GoTime) : Bool :=
  let base := 1 ≤ t.year && t.year ≤ 9999 &&
    validDate t.year t.month t.day t.hour t.minute t.sec
  if layout = "2006-01-02 15:04:05 MST" then base && zone3ok t.zone
  else if layout = "2006-01-02 15:04:05" then base && t.zone == "UTC"
  else if layout = "2006-01-02 15:04 MST" then base && t.sec == 0 && zone3ok t.zone
  else if layout = "2006-01-02 15:04" then base && t.sec == 0 && t.zone == "UTC"
  else if layout = "2006-01-02" then
    base && t.hour == 0 && t.minute == 0 && t.sec == 0 && t.zone == "UTC"
  else if layout = "2006-01" then
    base && t.day == 1 && t.hour == 0 && t.minute == 0 && t.sec == 0 && t.zone == "UTC"
  else if layout = "2006" then
    base && t.month == 1 && t.day == 1 && t.hour == 0 && t.minute == 0 &&
      t.sec == 0 && t.zone == "UTC"
  else false

/-! ## SHA-1 (model of Go `crypto/sha1.Sum` on the UTF-8 bytes)

`linkify` derives its placeholder tokens from the SHA-1 digest of a match's
bytes.  Words are `Nat` reduced modulo `2 ^ 32`. -/

/-- UTF-8 encoding of one character (Go `[]byte(string)`). -/
def utf8Bytes (c : Char) : List Nat :=
  let n := c.toNat
  if n < 128 then [n]
  else if n < 2048 then [192 + n / 64, 128 + n % 64]
  else if n < 65536 then [224 + n / 4096, 128 + n / 64 % 64, 128 + n % 64]
  else [240 + n / 262144, 128 + n / 4096 % 64, 128 + n / 64 % 64, 128 + n % 64]

def bytesOfChars (s : List Char) : List Nat := (s.map utf8Bytes).flatten

def w32 (n : Nat) : Nat := n % 4294967296

/-- Rotate a 32-bit word left by `k` (the two parts are bit-disjoint, so
addition is exact). -/
def rotl32 (k n : Nat) : Nat := (n * 2 ^ k) % 4294967296 + n / 2 ^ (32 - k)

def be32 (n : Nat) : List Nat :=
  [n / 2 ^ 24 % 256, n / 2 ^ 16 % 256, n / 2 ^ 8 % 256, n % 256]

def be64 (n : Nat) : List Nat :=
  [n / 2 ^ 56 % 256, n / 2 ^ 48 % 256, n / 2 ^ 40 % 256, n / 2 ^ 32 % 256,
   n / 2 ^ 24 % 256, n / 2 ^ 16 % 256, n / 2 ^ 8 % 256, n % 256]

/-- Merkle–Damgård padding: `0x80`, zeros to 56 mod 64, 64-bit bit length. -/
def sha1Pad (msg : List Nat) : List Nat :=
  let len := msg.length
  let zeros := (120 - (len + 1) % 64) % 64
  msg ++ 128 :: (List.replicate zeros 0 ++ be64 (len * 8))

def chunksOf64 : Nat → List Nat → List (List Nat)
  | 0, _ => []
  | _ + 1, [] => []
  | fuel + 1, l => l.take 64 :: chunksOf64 fuel (l.drop 64)

/-- 32-bit big-endian words of a 64-byte block. -/
def wordsOf : List Nat → List Nat
  | b1 :: b2 :: b3 :: b4 :: rest =>
    (((b1 * 256 + b2) * 256 + b3) * 256 + b4) :: wordsOf rest
  | _ => []

/-- Extend 16 words to the 80-word message schedule. -/
def sha1Extend (ws : List Nat) : List Nat :=
  (List.range 64).foldl
    (fun acc _ =>
      let n := acc.length
      acc ++ [rotl32 1 (Nat.xor (Nat.xor (acc.getD (n - 3) 0) (acc.getD (n - 8) 0))
        (Nat.xor (acc.getD (n - 14) 0) (acc.getD (n - 16) 0)))])
    ws

def sha1F (t b c d : Nat) : Nat :=
  if t < 20 then Nat.lor (Nat.land b c) (Nat.land (4294967295 - b) d)
  else if t < 40 then Nat.xor (Nat.xor b c) d
  else if t < 60 then Nat.lor (Nat.lor (Nat.land b c) (Nat.land b d)) (Nat.land c d)
  else Nat.xor (Nat.xor b c) d

def sha1K (t : Nat) : Nat :=
  if t < 20 then 1518500249
  else if t < 40 then 1859775393
  else if t < 60 then 2400959708
  else 3395469782

def sha1Round (st : Nat × Nat × Nat × Nat × Nat) (tw : Nat × Nat) :
    Nat × Nat × Nat × Nat × Nat :=
  let (a, b, c, d, e) := st
  let (t, w) := tw
  (w32 (rotl32 5 a + sha1F t b c d + e + sha1K t + w), a, rotl32 30 b, c, d)

def sha1Block (h : Nat × Nat × Nat × Nat × Nat) (block : List Nat) :
    Nat × Nat × Nat × Nat × Nat :=
  let (a, b, c, d, e) := (sha1Extend (wordsOf block)).enum.foldl sha1Round h
  (w32 (h.1 + a), w32 (h.2.1 + b), w32 (h.2.2.1 + c), w32 (h.2.2.2.1 + d),
   w32 (h.2.2.2.2 + e))

/-- SHA-1 digest (20 bytes) of a byte sequence. -/
def sha1 (msg : List Nat) : List Nat :=
  let r := (chunksOf64 (sha1Pad msg).length (sha1Pad msg)).foldl sha1Block
    (1732584193, 4023233417, 2562383102, 271733878, 3285377520)
  be32 r.1 ++ be32 r.2.1 ++ be32 r.2.2.1 ++ be32 r.2.2.2.1 ++ be32 r.2.2.2.2

/-- Lower-case hex digit (Go `encoding/hex` alphabet). -/
def hexDigit (n : Nat) : Char :=
  if n % 16 < 10 then Char.ofNat (48 + n % 16) else Char.ofNat (87 + n % 16)

def hexByte (b : Nat) : List Char := [hexDigit (b / 16), hexDigit b]

def sha1Hex (s : List Char) : List Char := ((sha1 (bytesOfChars s)).map hexByte).flatten

/-- The placeholder id of a raw match: `"$" + hex(sha1(match)) + "$"`. -/
def mkId (m : List Char) : List Char := '$' :: (sha1Hex m ++ ['$'])

/-! ## URL model (Go `net/url.Parse` / `URL.String`)

Modelled after Go's parser, with documented restrictions: bracketed IPv6
hosts are not modelled (rejected), the userinfo component is stored raw
after Go's character validation (not %-unescaped), and escaping treats each
character as one byte (the program's URLs are ASCII). -/

def isAlphaChar (c : Char) : Bool :=
  (97 ≤ c.toNat && c.toNat ≤ 122) || (65 ≤ c.toNat && c.toNat ≤ 90)

def isHexChar (c : Char) : Bool :=
  isDigitChar c || (97 ≤ c.toNat && c.toNat ≤ 102) || (65 ≤ c.toNat && c.toNat ≤ 70)

def unhexVal (c : Char) : Nat :=
  if isDigitChar c then c.toNat - 48
  else if 97 ≤ c.toNat && c.toNat ≤ 102 then c.toNat - 87
  else if 65 ≤ c.toNat && c.toNat ≤ 70 then c.toNat - 55
  else 0

/-- Go `stringContainsCTLByte`. -/
def containsCTL (s : List Char) : Bool := s.any fun c => c.toNat < 32 || c.toNat == 127

/-- `begins pre s`: `pre` is a leading run of `s` (Go `strings.HasPrefix`). -/
def begins : List Char → List Char → Bool
  | [], _ => true
  | _ :: _, [] => false
  | p :: ps, c :: cs => p = c && begins ps cs

/-- Split at the first occurrence of a character; `none` when absent
(Go `strings.Cut` / `split`). -/
def cutChar (t : Char) : List Char → List Char × Option (List Char)
  | [] => ([], none)
  | c :: rest =>
    if c = t then ([], some rest)
    else
      let p := cutChar t rest
      (c :: p.1, p.2)

/-- Index of the last occurrence of a character (Go `strings.LastIndex`). -/
def lastIndexOf (t : Char) (s : List Char) : Option Nat :=
  s.enum.foldl (fun acc p => if p.2 = t then some p.1 else acc) none

/-- Go `getScheme`: `none` is the "missing protocol scheme" error; an empty
scheme with the original string means no scheme was present. -/
def getSchemeLoop (orig : List Char) (first : Bool) (seen : List Char) :
    List Char → Option (List Char × List Char)
  | [] => some ([], orig)
  | c :: rest =>
    if isAlphaChar c then getSchemeLoop orig false (c :: seen) rest
    else if isDigitChar c || c = '+' || c = '-' || c = '.' then
      if first then some ([], orig) else getSchemeLoop orig false (c :: seen) rest
    else if c = ':' then
      if first then none else some (seen.reverse, rest)
    else some ([], orig)

def getScheme (s : List Char) : Option (List Char × List Char) :=
  getSchemeLoop s true [] s

inductive EncMode | encHost | encPath | encFragment
  deriving DecidableEq

/-- Go `unescape`: validate `%`-escapes and decode them.  In host mode an
escape of an ASCII byte below `0x80` other than `%25` is rejected. -/
def unescapeGo (mode : EncMode) : List Char → Option (List Char)
  | [] => some []
  | '%' :: h1 :: h2 :: rest =>
    if isHexChar h1 && isHexChar h2 then
      if mode = EncMode.encHost && unhexVal h1 < 8 && ¬(h1 = '2' && h2 = '5') then none
      else (unescapeGo mode rest).map fun t => Char.ofNat (unhexVal h1 * 16 + unhexVal h2) :: t
    else none
  | '%' :: _ => none
  | c :: rest => (unescapeGo mode rest).map fun t => c :: t

def hexDigitUpper (n : Nat) : Char :=
  if n % 16 < 10 then Char.ofNat (48 + n % 16) else Char.ofNat (55 + n % 16)

/-- Go `shouldEscape` for the three modes the program exercises. -/
def shouldEscapeGo (mode : EncMode) (c : Char) : Bool :=
  if isAlphaChar c || isDigitChar c then false
  else if mode = EncMode.encHost &&
      (c = '!' || c = '$' || c = '&' || c = '\'' || c = '(' || c = ')' || c = '*' ||
       c = '+' || c = ',' || c = ';' || c = '=' || c = ':' || c = '[' || c = ']' ||
       c = '<' || c = '>' || c = '"') then false
  else if c = '-' || c = '_' || c = '.' || c = '~' then false
  else if c = '$' || c = '&' || c = '+' || c = ',' || c = '/' || c = ':' || c = ';' ||
          c = '=' || c = '?' || c = '@' then
    match mode with
    | EncMode.encPath => c = '?'
    | EncMode.encFragment => false
    | EncMode.encHost => true
  else if mode = EncMode.encFragment && (c = '!' || c = '(' || c = ')' || c = '*') then
    false
  else true

def escapeGo (mode : EncMode) (s : List Char) : List Char :=
  (s.map fun c =>
    if shouldEscapeGo mode c then ['%', hexDigitUpper (c.toNat / 16), hexDigitUpper c.toNat]
    else [c]).flatten

/-- Go `validOptionalPort`. -/
def validOptionalPort : List Char → Bool
  | [] => true
  | ':' :: digits => digits.all isDigitChar
  | _ => false

/-- Go `parseHost` (non-bracketed hosts; IPv6 literals are outside the
model). -/
def parseHost (host : List Char) : Option (List Char) :=
  if host.head? = some '[' then none
  else
    let portOK := match lastIndexOf ':' host with
      | some i => validOptionalPort (host.drop i)
      | none => true
    if portOK then unescapeGo EncMode.encHost host else none

/-- Go `validUserinfo`. -/
def validUserinfo (s : List Char) : Bool :=
  s.all fun r => isAlphaChar r || isDigitChar r ||
    r = '-' || r = '.' || r = '_' || r = ':' || r = '~' || r = '!' || r = '$' || r = '&' ||
    r = '\'' || r = '(' || r = ')' || r = '*' || r = '+' || r = ',' || r = ';' ||
    r = '=' || r = '%' || r = '@'

/-- Go `parseAuthority`: optional userinfo before the last `@`, then the
host. -/
def parseAuthority (authority : List Char) : Option (Option String × List Char) :=
  match lastIndexOf '@' authority with
  | none => (parseHost authority).map fun h => (none, h)
  | some i =>
    let userinfo := authority.take i
    let rest := authority.drop (i + 1)
    if validUserinfo userinfo then
      (parseHost rest).map fun h => (some (String.mk userinfo), h)
    else none

structure URL where
  scheme : String
  opq : String
  user : Option String
  host : String
  path : String
  rawPath : String
  forceQuery : Bool
  rawQuery : String
  fragment : String
  rawFragment : String
  deriving DecidableEq

def emptyURL : URL := ⟨"", "", none, "", "", "", false, "", "", ""⟩

/-- Go `URL.setPath` followed by assembling the record: the path is stored
unescaped; `rawPath` keeps the input form when it is not the canonical
escaping. -/
def setPathAndFinish (scheme : List Char) (user : Option String) (host rest : List Char)
    (forceQ : Bool) (rawQ : List Char) : Option URL :=
  match unescapeGo EncMode.encPath rest with
  | none => none
  | some p =>
    let rawP := if rest = escapeGo EncMode.encPath p then [] else rest
    some ⟨String.mk scheme, "", user, String.mk host, String.mk p, String.mk rawP,
      forceQ, String.mk rawQ, "", ""⟩

/-- The authority/path tail of Go `parse` (after scheme and query handling),
for the non-opaque case. -/
def parseAuthPath (scheme rest : List Char) (forceQ : Bool) (rawQ : List Char) :
    Option URL :=
  if (scheme ≠ [] || ¬ begins ['/', '/', '/'] rest) && begins ['/', '/'] rest then
    let afterSS := rest.drop 2
    let (authority, rest2) :=
      match cutChar '/' afterSS with
      | (a, some r) => (a, '/' :: r)
      | (a, none) => (a, [])
    match parseAuthority authority with
    | none => none
    | some (user, host) => setPathAndFinish scheme user host rest2 forceQ rawQ
  else setPathAndFinish scheme none [] rest forceQ rawQ

/-- Go `parse(rawURL, false)`: the part of `url.Parse` that runs on the
string before the fragment. -/
def urlParseMain (raw : List Char) : Option URL :=
  if containsCTL raw then none
  else
    match getScheme raw with
    | none => none
    | some (schemeRaw, rest0) =>
      let scheme := schemeRaw.map Char.toLower
      let (rest1, forceQ, rawQ) :=
        if rest0.getLast? = some '?' ∧ ¬(rest0.dropLast.contains '?') then
          (rest0.dropLast, true, ([] : List Char))
        else
          match cutChar '?' rest0 with
          | (before, some after) => (before, false, after)
          | (before, none) => (before, false, [])
      if begins ['/'] rest1 then
        parseAuthPath scheme rest1 forceQ rawQ
      else if scheme ≠ [] then
        some ⟨String.mk scheme, String.mk rest1, none, "", "", "", forceQ,
          String.mk rawQ, "", ""⟩
      else if ((cutChar '/' rest1).1).contains ':' then none
      else parseAuthPath scheme rest1 forceQ rawQ

/-- Go `url.Parse`: split off the fragment at the first `#`, parse the rest,
then validate/store the fragment (an empty fragment is not stored). -/
def urlParse (raw : List Char) : Option URL :=
  let (u, frag) := cutChar '#' raw
  match urlParseMain u with
  | none => none
  | some base =>
    match frag with
    | none => some base
    | some f =>
      if f = [] then some base
      else
        match unescapeGo EncMode.encFragment f with
        | none => none
        | some fr =>
          let rawF := if f = escapeGo EncMode.encFragment fr then [] else f
          some { base with fragment := String.mk fr, rawFragment := String.mk rawF }

def escapedPathURL (u : URL) : List Char :=
  if u.rawPath ≠ "" then u.rawPath.data else escapeGo EncMode.encPath u.path.data

def escapedFragmentURL (u : URL) : List Char :=
  if u.rawFragment ≠ "" then u.rawFragment.data
  else escapeGo EncMode.encFragment u.fragment.data

/-- Go `(*URL).String()`, as in the `net/url` contemporary with the
repository (go1.7): `//` is written whenever a scheme, host or user is
present.  The repository's own test pins this behavior: the label of
`(( f:// ))` is `"f://"`. -/
def urlString (u : URL) : String :=
  let schemePart := if u.scheme ≠ "" then u.scheme.data ++ [':'] else []
  let queryPart := if u.forceQuery || u.rawQuery ≠ "" then '?' :: u.rawQuery.data else []
  let fragPart := if u.fragment ≠ "" then '#' :: escapedFragmentURL u else []
  if u.opq ≠ "" then String.mk (schemePart ++ (u.opq.data ++ (queryPart ++ fragPart)))
  else
    let authPart :=
      if u.scheme ≠ "" || u.host ≠ "" || u.user.isSome then
        '/' :: '/' ::
        ((match u.user with
          | some ui => ui.data ++ ['@']
          | none => []) ++
         (if u.host ≠ "" then escapeGo EncMode.encHost u.host.data else []))
      else []
    let p0 := escapedPathURL u
    let p1 := if p0 ≠ [] ∧ p0.head? ≠ some '/' ∧ u.host ≠ "" then '/' :: p0 else p0
    String.mk (schemePart ++ (authPart ++ (p1 ++ (queryPart ++ fragPart))))

/-! ## `parseLink`, `renderLink` (main.go) -/

/-- The `whitespace` cutset of main.go: `"\r\n\t "`. -/
def wsChars : List Char := ['\r', '\n', '\t', ' ']

def trimLeftWS (s : List Char) : List Char := s.dropWhile (wsChars.contains ·)

/-- Go `strings.Trim(s, whitespace)`: both ends. -/
def trimWS (s : List Char) : List Char :=
  ((trimLeftWS s).reverse.dropWhile (wsChars.contains ·)).reverse

/-- Go `strings.SplitN(s, " ", 2)`: the part before the first space, and the
rest after it when a space exists (the rest is not split further). -/
def splitOnceSpace : List Char → List Char × Option (List Char)
  | [] => ([], none)
  | c :: rest =>
    if c = ' ' then ([], some rest)
    else
      let p := splitOnceSpace rest
      (c :: p.1, p.2)

inductive LinkErr
  /-- `errNotALink`: not wrapped notation. -/
  | notALink
  /-- A `url.Parse` failure on the URL token. -/
  | badURL
  deriving DecidableEq

structure Link where
  url : URL
  label : String
  deriving DecidableEq

instance : DecidableEq (Except LinkErr Link) := fun a b =>
  match a, b with
  | Except.error x, Except.error y =>
    match decEq x y with
    | Decidable.isTrue h => Decidable.isTrue (congrArg Except.error h)
    | Decidable.isFalse h => Decidable.isFalse fun hc => h (Except.error.inj hc)
  | Except.ok x, Except.ok y =>
    match decEq x y with
    | Decidable.isTrue h => Decidable.isTrue (congrArg Except.ok h)
    | Decidable.isFalse h => Decidable.isFalse fun hc => h (Except.ok.inj hc)
  | Except.error _, Except.ok _ => Decidable.isFalse fun hc => Except.noConfusion hc
  | Except.ok _, Except.error _ => Decidable.isFalse fun hc => Except.noConfusion hc

/-- Model of main.go `parseLink`.  The byte-length guard `len(p) <= 4` is
equivalent to the character-length guard on every input that passes the
ASCII delimiter tests. -/
def parseLink (p : List Char) : Except LinkErr Link :=
  if ¬ begins ['(', '('] p || ¬ begins [')', ')'] p.reverse || p.length ≤ 4 then
    Except.error LinkErr.notALink
  else
    let q := trimWS ((p.drop 2).dropLast.dropLast)
    if q = [] then Except.error LinkErr.notALink
    else
      let parts := splitOnceSpace q
      match urlParse (trimWS parts.1) with
      | none => Except.error LinkErr.badURL
      | some u =>
        let lbl0 := match parts.2 with
          | some r => trimWS r
          | none => ([] : List Char)
        let lbl1 := if lbl0 = [] then u.host.data ++ u.path.data else lbl0
        let lbl2 := if lbl1 = [] then (urlString u).data else lbl1
        Except.ok ⟨u, String.mk lbl2⟩

/-- Model of main.go `renderLink`: result text, whether an error occurred,
and whether the render capability (the `"link"` template) was invoked.  On a
parse failure the original text is returned and the capability is not
invoked; on a template failure the label is returned. -/
def renderLink (tmpl : Link → Option String) (p : List Char) :
    List Char × Bool × Bool :=
  match parseLink p with
  | Except.error _ => (p, true, false)
  | Except.ok link =>
    match tmpl link with
    | some out => (out.data, false, true)
    | none => (link.label.data, true, true)

/-- The label-derivation rule in the words of the specification (claim C7):
the explicit remainder after the URL token when non-empty after trimming;
otherwise the URL's host concatenated with its path when non-empty;
otherwise the full URL serialized back to a string.  Stated separately from
`parseLink` so the theorem compares the source's computation against it. -/
def labelPriorityRule (p : List Char) (u : URL) : List Char :=
  let rem := match (splitOnceSpace (trimWS ((p.drop 2).dropLast.dropLast))).2 with
    | some r => trimWS r
    | none => []
  if rem ≠ [] then rem
  else if u.host.data ++ u.path.data ≠ [] then u.host.data ++ u.path.data
  else (urlString u).data

/-! ## The linkify scan (regexp `\(\(.+?\)\)`) and substitution -/

/-- Characters before the first `))` from this position on, failing at a
newline (`.` does not match `\n`) or the end. -/
def closeFind : List Char → Option (List Char)
  | [] => none
  | c :: rest =>
    if begins [')', ')'] (c :: rest) then some []
    else if c = '\n' then none
    else (closeFind rest).map (c :: ·)

/-- Interior of a non-greedy `\(\(.+?\)\)` match starting right after `((`:
at least one character, no newline, up to the earliest `))`. -/
def interiorOf : List Char → Option (List Char)
  | [] => none
  | c :: rest => if c = '\n' then none else (closeFind rest).map (c :: ·)

inductive Chunk
  /-- A run of text outside any match (the model emits single characters;
  only the concatenation is observable). -/
  | lit (cs : List Char)
  /-- One non-overlapping leftmost match of the link pattern. -/
  | mat (cs : List Char)
  deriving DecidableEq

/-- Leftmost non-overlapping decomposition of a string by the pattern, as
performed by `regexp.ReplaceAllStringFunc`.  The fuel argument is the string
length; every step consumes at least one character. -/
def scanF : Nat → List Char → List Chunk
  | 0, s => if s = [] then [] else [Chunk.lit s]
  | _ + 1, [] => []
  | fuel + 1, c :: rest =>
    if begins ['(', '('] (c :: rest) then
      match interiorOf rest.tail with
      | some inner =>
        Chunk.mat ('(' :: '(' :: (inner ++ [')', ')'])) ::
          scanF fuel (rest.tail.drop (inner.length + 2))
      | none => Chunk.lit [c] :: scanF fuel rest
    else Chunk.lit [c] :: scanF fuel rest

def scan (s : List Char) : List Chunk := scanF s.length s

def chunkStr : Chunk → List Char
  | Chunk.lit cs => cs
  | Chunk.mat cs => cs

def isMat : Chunk → Bool
  | Chunk.lit _ => false
  | Chunk.mat _ => true

/-- The raw matched substrings of one linkify pass, in order. -/
def matchesOf (s : List Char) : List (List Char) :=
  (scan s).filterMap fun ch =>
    match ch with
    | Chunk.mat m => some m
    | Chunk.lit _ => none

/-- Whether the pattern matches anywhere in the string. -/
def hasMatch (s : String) : Bool := (scan s.data).any isMat

/-- Lookup in the replacement list (Go's `repls` map keyed by placeholder). -/
def lookupRepl (id : List Char) : List (List Char × List Char) → Option (List Char)
  | [] => none
  | (k, v) :: rest => if k = id then some v else lookupRepl id rest

/-- The `ReplaceAllStringFunc` pass of `linkify`: for each match compute its
placeholder id; if already memoized, emit the id; otherwise render.  A
render error emits the fallback text in place (without memoizing); success
memoizes the rendering and emits the id.  Returns the emitted piece for each
chunk (literals unchanged), the final replacement list (in insertion order —
Go iterates its map in unspecified order, which is observably equivalent
because distinct ids are disjoint tokens), and the log of match strings for
which the render capability was invoked. -/
def replacePass (tmpl : Link → Option String) :
    List Chunk → List (List Char × List Char) →
    List (List Char) × List (List Char × List Char) × List (List Char)
  | [], repls => ([], repls, [])
  | Chunk.lit cs :: rest, repls =>
    let out := replacePass tmpl rest repls
    (cs :: out.1, out.2)
  | Chunk.mat m :: rest, repls =>
    match lookupRepl (mkId m) repls with
    | some _ =>
      let out := replacePass tmpl rest repls
      (mkId m :: out.1, out.2)
    | none =>
      match renderLink tmpl m with
      | (l, true, inv) =>
        let out := replacePass tmpl rest repls
        (l :: out.1, out.2.1, if inv then m :: out.2.2 else out.2.2)
      | (l, false, _) =>
        let out := replacePass tmpl rest (repls ++ [(mkId m, l)])
        (mkId m :: out.1, out.2.1, m :: out.2.2)

/-- Go `strings.Replace(s, old, new, -1)` for non-empty `old` (every
placeholder id is non-empty). -/
def replaceAllF : Nat → List Char → List Char → List Char → List Char
  | 0, s, _, _ => s
  | _ + 1, [], _, _ => []
  | fuel + 1, c :: rest, old, new =>
    if old ≠ [] && begins old (c :: rest) then
      new ++ replaceAllF fuel ((c :: rest).drop old.length) old new
    else c :: replaceAllF fuel rest old new

def replaceAll (s old new : List Char) : List Char := replaceAllF s.length s old new

/-- Model of main.go `linkify`, with the program's two ambient capabilities
made explicit: `tmpl` is the `"link"` template of the global `formatter`
(`none` models a template execution error) and `escape` is the global escape
function (`nopstring` in text mode, `html/template.HTMLEscapeString` in HTML
mode). -/
def linkify (tmpl : Link → Option String) (escape : String → String) (s : String) :
    String :=
  let out := replacePass tmpl (scan s.data) []
  let escaped := (escape (String.mk out.1.flatten)).data
  String.mk (out.2.1.foldl (fun acc pr => replaceAll acc pr.1 pr.2) escaped)

/-- The match strings for which one `linkify` call invokes the render
capability (with multiplicity). -/
def renderCalls (tmpl : Link → Option String) (s : String) : List (List Char) :=
  (replacePass tmpl (scan s.data) []).2.2

/-- Occurrence count of a string in a list of strings. -/
def countOcc (x : List Char) (l : List (List Char)) : Nat :=
  (l.filter (fun y => y = x)).length

/-- One character of Go `html/template.HTMLEscapeString`. -/
def htmlEscChar (c : Char) : List Char :=
  if c = '\'' then "&#39;".data
  else if c = '"' then "&#34;".data
  else if c = '&' then "&amp;".data
  else if c = '<' then "&lt;".data
  else if c = '>' then "&gt;".data
  else if c.toNat = 0 then [Char.ofNat 0xFFFD]
  else [c]

/-- Go `html/template.HTMLEscapeString` (the escape function in HTML mode). -/
def htmlEscapeString (s : String) : String := String.mk ((s.data.map htmlEscChar).flatten)

/-- main.go `nopstring`: the escape function in text mode. -/
def nopstring (s : String) : String := s

/-- A render capability whose `"link"` template always produces `"<b>"`
(markup output). -/
def tmplB : Link → Option String := fun _ => some "<b>"

/-- A render capability whose `"link"` template always produces `"X"`. -/
def tmplX : Link → Option String := fun _ => some "X"

/-! ## Helper lemmas: digits, field parsers, formatting -/

theorem data_mk (l : List Char) : (String.mk l).data = l := rfl

theorem digit_char_spec (k : Nat) (h : k < 10) :
    isDigitChar (Char.ofNat (48 + k)) = true ∧ digVal (Char.ofNat (48 + k)) = k := by
  interval_cases k <;> exact ⟨by decide, by decide⟩

theorem isDigitChar_dig (n : Nat) : isDigitChar (dig n) = true :=
  (digit_char_spec (n % 10) (by omega)).1

theorem digVal_dig (n : Nat) : digVal (dig n) = n % 10 :=
  (digit_char_spec (n % 10) (by omega)).2

theorem getnum2_pad2 (n : Nat) (h : n ≤ 99) :
    ∀ r : List Char, getnum2 (pad2 n ++ r) = some (n, r) := by
  intro r
  simp [pad2, getnum2, isDigitChar_dig, digVal_dig]
  omega

theorem getnum2_pad2_nil (n : Nat) (h : n ≤ 99) : getnum2 (pad2 n) = some (n, []) := by
  simpa using getnum2_pad2 n h []

theorem getnum12_pad2 (n : Nat) (h : n ≤ 99) :
    ∀ r : List Char, getnum12 (pad2 n ++ r) = some (n, r) := by
  intro r
  simp [pad2, getnum12, isDigitChar_dig, digVal_dig]
  omega

theorem getnum4_pad4 (n : Nat) (h : n ≤ 9999) :
    ∀ r : List Char, getnum4 (pad4 n ++ r) = some (n, r) := by
  intro r
  simp [pad4, h, getnum4, isDigitChar_dig, digVal_dig]
  omega

theorem getnum4_pad4_nil (n : Nat) (h : n ≤ 9999) : getnum4 (pad4 n) = some (n, []) := by
  simpa using getnum4_pad4 n h []

theorem litc_same (c : Char) : ∀ r : List Char, litc c (c :: r) = some r := by
  intro r; simp [litc]

theorem litc_colon_space : ∀ r : List Char, litc ':' (' ' :: r) = none := by
  intro r; simp [litc]

theorem daysIn_le (mo y : Nat) : daysIn mo y ≤ 31 := by
  unfold daysIn
  split
  · split <;> decide
  · split <;> decide

theorem zone3ok_parse (z : String) (h : zone3ok z = true) :
    ∀ r, zoneAbbr (z.data ++ r) = some (z, r) := by
  obtain ⟨zl⟩ := z
  intro r
  rcases zl with _ | ⟨c1, _ | ⟨c2, _ | ⟨c3, _ | ⟨c4, rest⟩⟩⟩⟩
  · simp [zone3ok] at h
  · simp [zone3ok] at h
  · simp [zone3ok] at h
  · simp only [zone3ok, Bool.and_eq_true] at h
    obtain ⟨⟨h1, h2⟩, h3⟩ := h
    simp [zoneAbbr, h1, h2, h3]
  · simp [zone3ok] at h

/-! ## Helper lemmas: `dateLayoutsParse` -/

theorem dateLayoutsParse_first (l1 : List String) (l : String) (l2 : List String)
    (v : String) (t : GoTime)
    (hfail : ∀ m ∈ l1, timeParse m v = none) (hok : timeParse l v = some t) :
    dateLayoutsParse (l1 ++ l :: l2) v = some (t, l) := by
  induction l1 with
  | nil => simp [dateLayoutsParse, hok]
  | cons a as ih =>
    have ha : timeParse a v = none := hfail a (List.mem_cons_self a as)
    simp only [List.cons_append, dateLayoutsParse, ha]
    exact ih fun m hm => hfail m (List.mem_cons_of_mem a hm)

theorem dateLayoutsParse_all_fail (ls : List String) (v : String)
    (h : ∀ m ∈ ls, timeParse m v = none) : dateLayoutsParse ls v = none := by
  induction ls with
  | nil => rfl
  | cons a as ih =>
    have ha : timeParse a v = none := h a (List.mem_cons_self a as)
    simp only [dateLayoutsParse, ha]
    exact ih fun m hm => h m (List.mem_cons_of_mem a hm)

set_option maxHeartbeats 2000000 in
/-- Round-trip at the parse level: a value exactly representable at a layout
of the list, formatted under that layout, is parsed back to the same value
with the same layout retained (every more specific layout fails on the
formatted string, so the precision tag is not upgraded). -/
theorem dateLayoutsParse_roundtrip (l : String) (t : GoTime)
    (hl : l ∈ layouts) (hx : exactAt l t = true) :
    dateLayoutsParse layouts (timeFormat l t) = some (t, l) := by
  obtain ⟨y, mo, d, h, mi, s, z⟩ := t
  simp only [layouts, List.mem_cons, List.not_mem_nil, or_false] at hl
  rcases hl with rfl | rfl | rfl | rfl | rfl | rfl | rfl
  · -- layout "2006-01-02 15:04:05 MST"
    simp [exactAt, and_assoc] at hx
    obtain ⟨hy1, hy2, hV, hz3⟩ := hx
    have hB := hV
    simp only [validDate, Bool.and_eq_true, decide_eq_true_eq, and_assoc] at hB
    obtain ⟨hmo1, hmo2, hd1, hd2, hh, hmi, hs⟩ := hB
    have hd99 : d ≤ 99 := le_trans hd2 (le_trans (daysIn_le mo y) (by omega))
    have hzA : zoneAbbr z.data = some (z, []) := by simpa using zone3ok_parse z hz3 []
    simp [timeFormat, fmtYMD, layouts, dateLayoutsParse, timeParse, parseYMD, data_mk,
      List.append_assoc, getnum4_pad4 y hy2, getnum2_pad2 mo (by omega),
      getnum2_pad2 d hd99, getnum2_pad2 mi (by omega), getnum2_pad2 s (by omega),
      getnum2_pad2_nil s (by omega),
      getnum12_pad2 h (by omega), litc_same, litc_colon_space, litc, atEnd, hzA, hV]
  · -- layout "2006-01-02 15:04:05"
    simp [exactAt, and_assoc] at hx
    obtain ⟨hy1, hy2, hV, hzU⟩ := hx
    subst hzU
    have hB := hV
    simp only [validDate, Bool.and_eq_true, decide_eq_true_eq, and_assoc] at hB
    obtain ⟨hmo1, hmo2, hd1, hd2, hh, hmi, hs⟩ := hB
    have hd99 : d ≤ 99 := le_trans hd2 (le_trans (daysIn_le mo y) (by omega))
    simp [timeFormat, fmtYMD, layouts, dateLayoutsParse, timeParse, parseYMD, data_mk,
      List.append_assoc, getnum4_pad4 y hy2, getnum2_pad2 mo (by omega),
      getnum2_pad2 d hd99, getnum2_pad2 mi (by omega), getnum2_pad2 s (by omega),
      getnum2_pad2_nil s (by omega),
      getnum12_pad2 h (by omega), litc_same, litc_colon_space, litc, atEnd, hV]
  · -- layout "2006-01-02 15:04 MST"
    simp [exactAt, and_assoc] at hx
    obtain ⟨hy1, hy2, hV, hs0, hz3⟩ := hx
    subst hs0
    have hB := hV
    simp only [validDate, Bool.and_eq_true, decide_eq_true_eq, and_assoc] at hB
    obtain ⟨hmo1, hmo2, hd1, hd2, hh, hmi, hs⟩ := hB
    have hd99 : d ≤ 99 := le_trans hd2 (le_trans (daysIn_le mo y) (by omega))
    have hzA : zoneAbbr z.data = some (z, []) := by simpa using zone3ok_parse z hz3 []
    simp [timeFormat, fmtYMD, layouts, dateLayoutsParse, timeParse, parseYMD, data_mk,
      List.append_assoc, getnum4_pad4 y hy2, getnum2_pad2 mo (by omega),
      getnum2_pad2 d hd99, getnum2_pad2 mi (by omega),
      getnum12_pad2 h (by omega), litc_same, litc_colon_space, litc, atEnd, hzA, hV]
  · -- layout "2006-01-02 15:04"
    simp [exactAt, and_assoc] at hx
    obtain ⟨hy1, hy2, hV, hs0, hzU⟩ := hx
    subst hs0; subst hzU
    have hB := hV
    simp only [validDate, Bool.and_eq_true, decide_eq_true_eq, and_assoc] at hB
    obtain ⟨hmo1, hmo2, hd1, hd2, hh, hmi, hs⟩ := hB
    have hd99 : d ≤ 99 := le_trans hd2 (le_trans (daysIn_le mo y) (by omega))
    simp [timeFormat, fmtYMD, layouts, dateLayoutsParse, timeParse, parseYMD, data_mk,
      List.append_assoc, getnum4_pad4 y hy2, getnum2_pad2 mo (by omega),
      getnum2_pad2 d hd99, getnum2_pad2 mi (by omega), getnum2_pad2_nil mi (by omega),
      getnum12_pad2 h (by omega), litc_same, litc_colon_space, litc, atEnd, hV]
  · -- layout "2006-01-02"
    simp [exactAt, and_assoc] at hx
    obtain ⟨hy1, hy2, hV, hh0, hmi0, hs0, hzU⟩ := hx
    subst hh0; subst hmi0; subst hs0; subst hzU
    have hB := hV
    simp only [validDate, Bool.and_eq_true, decide_eq_true_eq, and_assoc] at hB
    obtain ⟨hmo1, hmo2, hd1, hd2, hh, hmi, hs⟩ := hB
    have hd99 : d ≤ 99 := le_trans hd2 (le_trans (daysIn_le mo y) (by omega))
    simp [timeFormat, fmtYMD, layouts, dateLayoutsParse, timeParse, parseYMD, data_mk,
      List.append_assoc, getnum4_pad4 y hy2, getnum2_pad2 mo (by omega),
      getnum2_pad2 d hd99, getnum2_pad2_nil d hd99, litc_same, litc, atEnd, hV]
  · -- layout "2006-01"
    simp [exactAt, and_assoc] at hx
    obtain ⟨hy1, hy2, hV, hd1, hh0, hmi0, hs0, hzU⟩ := hx
    subst hd1; subst hh0; subst hmi0; subst hs0; subst hzU
    have hB := hV
    simp only [validDate, Bool.and_eq_true, decide_eq_true_eq, and_assoc] at hB
    obtain ⟨hmo1, hmo2, hd1, hd2, hh, hmi, hs⟩ := hB
    simp [timeFormat, fmtYMD, layouts, dateLayoutsParse, timeParse, parseYMD, data_mk,
      List.append_assoc, getnum4_pad4 y hy2, getnum2_pad2 mo (by omega),
      getnum2_pad2_nil mo (by omega), litc_same, litc, atEnd, hV]
  · -- layout "2006"
    simp [exactAt, and_assoc] at hx
    obtain ⟨hy1, hy2, hV, hmo1, hd1, hh0, hmi0, hs0, hzU⟩ := hx
    subst hmo1; subst hd1; subst hh0; subst hmi0; subst hs0; subst hzU
    simp [timeFormat, fmtYMD, layouts, dateLayoutsParse, timeParse, parseYMD, data_mk,
      List.append_assoc, getnum4_pad4 y hy2, getnum4_pad4_nil y hy2, litc_same, litc,
      atEnd, hV]

/-! ## Date-range claim theorems -/

/-- C1 (amended): `NewDateRange` returns an error iff every endpoint fails —
each endpoint's string is either empty or fails to parse against the layout
list — except when both strings are empty.  In particular an empty endpoint
together with a failing non-empty endpoint DOES yield an error. -/
theorem newDateRange_error_iff (fs ts : String) :
    (NewDateRange fs ts).2.isSome = true ↔
      ((fs = "" ∨ dateLayoutsParse layouts fs = none) ∧
       (ts = "" ∨ dateLayoutsParse layouts ts = none) ∧
       ¬(fs = "" ∧ ts = "")) := by
  unfold NewDateRange parseFromTo
  by_cases hf : fs = ""
  · by_cases ht : ts = ""
    · simp [hf, ht]
    · cases hpt : dateLayoutsParse layouts ts with
      | none => simp [hf, ht, hpt]
      | some p => obtain ⟨t, l⟩ := p; simp [hf, ht, hpt]
  · by_cases ht : ts = ""
    · cases hpf : dateLayoutsParse layouts fs with
      | none => simp [hf, ht, hpf]
      | some p => obtain ⟨t, l⟩ := p; simp [hf, ht, hpf]
    · cases hpf : dateLayoutsParse layouts fs with
      | none =>
        cases hpt : dateLayoutsParse layouts ts with
        | none => simp [hf, ht, hpf, hpt]
        | some p => obtain ⟨t, l⟩ := p; simp [hf, ht, hpf, hpt]
      | some p =>
        obtain ⟨t, l⟩ := p
        cases hpt : dateLayoutsParse layouts ts with
        | none => simp [hf, ht, hpf, hpt]
        | some q => obtain ⟨t2, l2⟩ := q; simp [hf, ht, hpf, hpt]

/-- C1 (counterexample): with an empty `from` string and a non-empty `to`
string that fails to parse, construction returns an error — refuting the
claim that an error occurs only when both strings are non-empty. -/
theorem newDateRange_one_empty_errors :
    (NewDateRange "" "x").2 = some (EndErr.undefined, EndErr.parseFail) := by decide

/-- C2 (amended): constructing a `DateRange` from two empty strings returns
NO error (and the zero range): both endpoints fail with `errUndefined`, which
is exactly the case the error condition excludes. -/
theorem newDateRange_both_empty :
    NewDateRange "" "" = (zeroDateRange, none) := by decide

/-- C2 (counterexample): `NewDateRange "" ""` does not return an error,
refuting the claim that it does. -/
theorem newDateRange_both_empty_no_error :
    (NewDateRange "" "").2 = none := by decide

/-- C8: for a non-empty endpoint string, the layout list is tried in order;
the first layout that parses determines both the stored timestamp and the
retained layout tag, and if no layout parses, the endpoint produces a parse
error (surfaced by `NewDateRange` when the other endpoint is unset). -/
theorem layouts_tried_in_order (v : String) (hv : v ≠ "") :
    (∀ t l l1 l2, layouts = l1 ++ l :: l2 →
        (∀ m ∈ l1, timeParse m v = none) → timeParse l v = some t →
        dateLayoutsParse layouts v = some (t, l) ∧
        (NewDateRange v "").1.From = t ∧
        (NewDateRange v "").1.fromLayout = l ∧
        (NewDateRange v "").2 = none) ∧
    ((∀ m ∈ layouts, timeParse m v = none) →
        dateLayoutsParse layouts v = none ∧
        (NewDateRange v "").2 = some (EndErr.parseFail, EndErr.undefined)) := by
  constructor
  · intro t l l1 l2 hsplit hfail hok
    have hparse : dateLayoutsParse layouts v = some (t, l) := by
      rw [hsplit]; exact dateLayoutsParse_first l1 l l2 v t hfail hok
    refine ⟨hparse, ?_, ?_, ?_⟩ <;>
      · unfold NewDateRange parseFromTo
        simp [hv, hparse]
  · intro hall
    have hnone := dateLayoutsParse_all_fail layouts v hall
    refine ⟨hnone, ?_⟩
    unfold NewDateRange parseFromTo
    simp [hv, hnone]

/-- C8 (witness): `"2012-03"` fails the five layouts more specific than
`"2006-01"`, parses under `"2006-01"`, and that layout is retained; `"zz"`
fails all layouts and produces a parse error. -/
theorem layouts_tried_in_order_witness :
    (dateLayoutsParse layouts "2012-03" = some (⟨2012, 3, 1, 0, 0, 0, "UTC"⟩, "2006-01") ∧
     (NewDateRange "2012-03" "").1.From = ⟨2012, 3, 1, 0, 0, 0, "UTC"⟩ ∧
     (NewDateRange "2012-03" "").1.fromLayout = "2006-01" ∧
     (NewDateRange "2012-03" "").2 = none) ∧
    (dateLayoutsParse layouts "zz" = none ∧
     (NewDateRange "zz" "").2 = some (EndErr.parseFail, EndErr.undefined)) :=
  ⟨(layouts_tried_in_order "2012-03" (by decide)).1 ⟨2012, 3, 1, 0, 0, 0, "UTC"⟩ "2006-01"
      ["2006-01-02 15:04:05 MST", "2006-01-02 15:04:05", "2006-01-02 15:04 MST",
       "2006-01-02 15:04", "2006-01-02"] ["2006"] rfl (by decide) (by decide),
   (layouts_tried_in_order "zz" (by decide)).2 (by decide)⟩

/-- C10: when `NewDateRange` returns an error, the returned range has
nonetheless been written through (`*d = r` runs before the error return):
no endpoint parsed successfully in the error case, so both endpoints hold
the zero time with an empty layout — the zero `DateRange`. -/
theorem newDateRange_error_overwrites (fs ts : String)
    (h : (NewDateRange fs ts).2.isSome = true) :
    (NewDateRange fs ts).1 = zeroDateRange := by
  unfold NewDateRange parseFromTo at h ⊢
  by_cases hf : fs = ""
  · by_cases ht : ts = ""
    · simp [hf, ht] at h
    · cases hpt : dateLayoutsParse layouts ts with
      | none => simp [hf, ht, hpt, zeroDateRange]
      | some p => obtain ⟨t, l⟩ := p; simp [hf, ht, hpt] at h
  · by_cases ht : ts = ""
    · cases hpf : dateLayoutsParse layouts fs with
      | none => simp [hf, ht, hpf, zeroDateRange]
      | some p => obtain ⟨t, l⟩ := p; simp [hf, ht, hpf] at h
    · cases hpf : dateLayoutsParse layouts fs with
      | none =>
        cases hpt : dateLayoutsParse layouts ts with
        | none => simp [hf, ht, hpf, hpt, zeroDateRange]
        | some p => obtain ⟨t, l⟩ := p; simp [hf, ht, hpf, hpt] at h
      | some p =>
        obtain ⟨t, l⟩ := p
        cases hpt : dateLayoutsParse layouts ts with
        | none => simp [hf, ht, hpf, hpt] at h
        | some q => obtain ⟨t2, l2⟩ := q; simp [hf, ht, hpf, hpt] at h

/-- C10 (witness): two unparseable strings produce an error and the returned
range is the fully overwritten zero range. -/
theorem newDateRange_error_overwrites_witness :
    (NewDateRange "x" "y").2.isSome = true ∧ (NewDateRange "x" "y").1 = zeroDateRange :=
  ⟨by decide, newDateRange_error_overwrites "x" "y" (by decide)⟩

/-- C3 (amended): for every layout in the list and every non-zero timestamp
exactly representable at that layout's precision, formatting, parsing via
`NewDateRange` and re-serializing via `MarshalYAML` reproduces the original
string with the original precision tag. -/
theorem dateRange_roundtrip (l : String) (t : GoTime) (hl : l ∈ layouts)
    (hx : exactAt l t = true) (hz : t.isZero = false) :
    (NewDateRange (timeFormat l t) "").2 = none ∧
    (NewDateRange (timeFormat l t) "").1.From = t ∧
    (NewDateRange (timeFormat l t) "").1.fromLayout = l ∧
    marshalYAML (NewDateRange (timeFormat l t) "").1 = some (timeFormat l t, "") := by
  have hparse := dateLayoutsParse_roundtrip l t hl hx
  have hne : timeFormat l t ≠ "" := by
    intro h0
    rw [h0] at hparse
    have hemp : dateLayoutsParse layouts "" = none := by decide
    rw [hemp] at hparse
    exact Option.noConfusion hparse
  have hlne : l ≠ "" := by
    simp only [layouts, List.mem_cons, List.not_mem_nil, or_false] at hl
    rcases hl with rfl | rfl | rfl | rfl | rfl | rfl | rfl <;> decide
  have hrange : NewDateRange (timeFormat l t) "" =
      (⟨t, zeroTime, l, ""⟩, none) := by
    unfold NewDateRange parseFromTo
    simp [hne, hparse, zeroDateRange]
  rw [hrange]
  refine ⟨rfl, rfl, rfl, ?_⟩
  have hzz : zeroTime.isZero = true := by decide
  unfold marshalYAML
  simp [hz, hzz, hlne, hne]

/-- C3 (counterexample): the string `"0001"` formats the zero time at year
precision; it parses successfully (layout `"2006"` retained), but
`MarshalYAML` drops zero endpoints, so serialization yields nothing instead
of reproducing `"0001"`. -/
theorem dateRange_roundtrip_zero_cex :
    (NewDateRange "0001" "").2 = none ∧
    (NewDateRange "0001" "").1.From = zeroTime ∧
    (NewDateRange "0001" "").1.fromLayout = "2006" ∧
    marshalYAML (NewDateRange "0001" "").1 = none := by decide

/-- C3 (witness): the year-precision value 2012 round-trips: `"2012"` is
parsed with layout `"2006"` retained and re-serializes to `"2012"`. -/
theorem dateRange_roundtrip_witness :
    (("2006" : String) ∈ layouts ∧
     exactAt "2006" ⟨2012, 1, 1, 0, 0, 0, "UTC"⟩ = true ∧
     GoTime.isZero ⟨2012, 1, 1, 0, 0, 0, "UTC"⟩ = false) ∧
    ((NewDateRange (timeFormat "2006" ⟨2012, 1, 1, 0, 0, 0, "UTC"⟩) "").2 = none ∧
     (NewDateRange (timeFormat "2006" ⟨2012, 1, 1, 0, 0, 0, "UTC"⟩) "").1.From =
       ⟨2012, 1, 1, 0, 0, 0, "UTC"⟩ ∧
     (NewDateRange (timeFormat "2006" ⟨2012, 1, 1, 0, 0, 0, "UTC"⟩) "").1.fromLayout =
       "2006" ∧
     marshalYAML (NewDateRange (timeFormat "2006" ⟨2012, 1, 1, 0, 0, 0, "UTC"⟩) "").1 =
       some (timeFormat "2006" ⟨2012, 1, 1, 0, 0, 0, "UTC"⟩, "")) :=
  ⟨⟨by decide, by decide, by decide⟩,
   dateRange_roundtrip "2006" ⟨2012, 1, 1, 0, 0, 0, "UTC"⟩ (by decide) (by decide)
     (by decide)⟩

/-! ## Helper lemmas: the linkify scan -/

theorem begins_two (a b c : Char) (rest : List Char)
    (h : begins [a, b] (c :: rest) = true) :
    c = a ∧ ∃ rest2, rest = b :: rest2 := by
  cases rest with
  | nil => simp [begins] at h
  | cons d rest2 =>
    simp only [begins, Bool.and_eq_true, decide_eq_true_eq] at h
    obtain ⟨h1, h2, -⟩ := h
    exact ⟨h1.symm, rest2, by rw [h2]⟩

theorem closeFind_decomp : ∀ (v l : List Char), closeFind v = some l →
    v = l ++ ')' :: ')' :: v.drop (l.length + 2) := by
  intro v
  induction v with
  | nil => intro l h; simp [closeFind] at h
  | cons c rest ih =>
    intro l h
    simp only [closeFind] at h
    by_cases hb : begins [')', ')'] (c :: rest) = true
    · rw [if_pos hb] at h
      obtain rfl : ([] : List Char) = l := Option.some.inj h
      obtain ⟨rfl, rest2, rfl⟩ := begins_two _ _ _ _ hb
      simp
    · rw [if_neg hb] at h
      by_cases hn : c = '\n'
      · rw [if_pos hn] at h; exact absurd h (by simp)
      · rw [if_neg hn] at h
        cases hcf : closeFind rest with
        | none => rw [hcf] at h; exact absurd h (by simp)
        | some l2 =>
          rw [hcf] at h
          simp only [Option.map_some', Option.some.injEq] at h
          subst h
          have hr := ih l2 hcf
          calc c :: rest
              = c :: (l2 ++ ')' :: ')' :: rest.drop (l2.length + 2)) := by rw [← hr]
            _ = (c :: l2) ++ ')' :: ')' :: ((c :: rest).drop ((c :: l2).length + 2)) := by
                simp [List.length_cons]

theorem interiorOf_decomp (u inner : List Char) (h : interiorOf u = some inner) :
    u = inner ++ ')' :: ')' :: u.drop (inner.length + 2) ∧ 1 ≤ inner.length := by
  cases u with
  | nil => simp [interiorOf] at h
  | cons c rest =>
    simp only [interiorOf] at h
    by_cases hn : c = '\n'
    · rw [if_pos hn] at h; exact absurd h (by simp)
    · rw [if_neg hn] at h
      cases hcf : closeFind rest with
      | none => rw [hcf] at h; exact absurd h (by simp)
      | some l2 =>
        rw [hcf] at h
        simp only [Option.map_some', Option.some.injEq] at h
        subst h
        have hr := closeFind_decomp rest l2 hcf
        refine ⟨?_, by simp⟩
        calc c :: rest
            = c :: (l2 ++ ')' :: ')' :: rest.drop (l2.length + 2)) := by rw [← hr]
          _ = (c :: l2) ++ ')' :: ')' :: ((c :: rest).drop ((c :: l2).length + 2)) := by
              simp [List.length_cons]

theorem scanF_flatten : ∀ (fuel : Nat) (s : List Char), s.length ≤ fuel →
    ((scanF fuel s).map chunkStr).flatten = s := by
  intro fuel
  induction fuel with
  | zero =>
    intro s hs
    have hnil : s = [] := List.eq_nil_of_length_eq_zero (Nat.le_zero.mp hs)
    subst hnil; rfl
  | succ n ih =>
    intro s hs
    cases s with
    | nil => rfl
    | cons c rest =>
      unfold scanF
      by_cases hb : begins ['(', '('] (c :: rest) = true
      · rw [if_pos hb]
        obtain ⟨rfl, rest2, rfl⟩ := begins_two _ _ _ _ hb
        simp only [List.tail_cons]
        cases hint : interiorOf rest2 with
        | some inner =>
          obtain ⟨hdec, hlen1⟩ := interiorOf_decomp rest2 inner hint
          simp only [List.map_cons, chunkStr, List.flatten_cons]
          have hslen : rest2.length + 2 ≤ n + 1 := by simpa using hs
          have hdlen : (rest2.drop (inner.length + 2)).length ≤ n := by
            simp only [List.length_drop]
            omega
          rw [ih _ hdlen]
          conv_rhs => rw [hdec]
          simp
        | none =>
          simp only [List.map_cons, chunkStr, List.flatten_cons]
          have hlen : (('(' : Char) :: rest2).length ≤ n := by
            simp only [List.length_cons] at hs ⊢
            omega
          rw [ih _ hlen]
          simp
      · rw [if_neg hb]
        simp only [List.map_cons, chunkStr, List.flatten_cons]
        have hlen : rest.length ≤ n := by
          simp only [List.length_cons] at hs
          omega
        rw [ih _ hlen]
        simp

theorem scan_flatten (s : List Char) : ((scan s).map chunkStr).flatten = s :=
  scanF_flatten s.length s le_rfl

/-! ## Helper lemmas: the replacement pass -/

theorem replacePass_no_mat (tmpl : Link → Option String) :
    ∀ (chunks : List Chunk) (repls : List (List Char × List Char)),
      (∀ ch ∈ chunks, isMat ch = false) →
      replacePass tmpl chunks repls = (chunks.map chunkStr, repls, []) := by
  intro chunks
  induction chunks with
  | nil => intro repls _; rfl
  | cons ch rest ih =>
    intro repls h
    cases ch with
    | lit cs =>
      have hrest : ∀ ch ∈ rest, isMat ch = false :=
        fun ch hm => h ch (List.mem_cons_of_mem _ hm)
      simp [replacePass, ih repls hrest, chunkStr]
    | mat m => exact absurd (h _ (List.mem_cons_self _ _)) (by simp [isMat])

/-- When the input contains no match of the link pattern, `linkify` is
exactly the escape function applied to the input. -/
theorem linkify_no_match (tmpl : Link → Option String) (escape : String → String)
    (s : String) (h : hasMatch s = false) : linkify tmpl escape s = escape s := by
  have hall : ∀ ch ∈ scan s.data, isMat ch = false := by
    intro ch hm
    by_contra hc
    have hany : (scan s.data).any isMat = true :=
      List.any_eq_true.mpr ⟨ch, hm, by simpa using hc⟩
    rw [hasMatch] at h
    rw [hany] at h
    exact Bool.noConfusion h
  simp only [linkify]
  rw [replacePass_no_mat tmpl _ [] hall, scan_flatten s.data]
  simp only [List.foldl_nil]

/-! ## Linkify claim theorems: C5 and C6 -/

/-- C6: for every input with no occurrence of the `((...))` pattern — and
any render capability and escape function — `linkify` returns exactly the
escaped input. -/
theorem linkify_plain_is_escape (tmpl : Link → Option String)
    (escape : String → String) (s : String) (h : hasMatch s = false) :
    linkify tmpl escape s = escape s :=
  linkify_no_match tmpl escape s h

/-- C6 (witness): a plain string with markup characters is passed through
the HTML escape function unchanged otherwise. -/
theorem linkify_plain_is_escape_witness :
    hasMatch "a<b" = false ∧
    linkify tmplX htmlEscapeString "a<b" = htmlEscapeString "a<b" :=
  ⟨by decide, linkify_plain_is_escape tmplX htmlEscapeString "a<b" (by decide)⟩

/-- C5 (amended): `linkify` applied to a match-free output of `linkify` is
the escape of that output; it returns the output unchanged precisely when
the installed escape function fixes it (as the identity escape of text mode
always does) — not for every escape function. -/
theorem linkify_idempotent_on_escaped (tmpl : Link → Option String)
    (escape : String → String) (s0 : String)
    (h1 : hasMatch (linkify tmpl escape s0) = false)
    (h2 : escape (linkify tmpl escape s0) = linkify tmpl escape s0) :
    linkify tmpl escape (linkify tmpl escape s0) = linkify tmpl escape s0 := by
  rw [linkify_no_match tmpl escape _ h1, h2]

set_option maxRecDepth 100000 in
/-- C5 (witness): in text mode (identity escape) `linkify` is idempotent on
its own match-free output. -/
theorem linkify_idempotent_on_escaped_witness :
    (hasMatch (linkify tmplX nopstring "((f://a))") = false ∧
     nopstring (linkify tmplX nopstring "((f://a))") = linkify tmplX nopstring "((f://a))") ∧
    linkify tmplX nopstring (linkify tmplX nopstring "((f://a))") =
      linkify tmplX nopstring "((f://a))" :=
  ⟨⟨by decide, rfl⟩,
   linkify_idempotent_on_escaped tmplX nopstring "((f://a))" (by decide) rfl⟩

set_option maxRecDepth 100000 in
/-- C5 (counterexample): with the HTML escape function installed and a
`"link"` template that renders markup, `linkify` applied to its own
match-free output escapes that markup again, so it is not the identity:
the claim fails for this escape function. -/
theorem linkify_not_idempotent_html :
    hasMatch (linkify tmplB htmlEscapeString "((f://a))") = false ∧
    linkify tmplB htmlEscapeString (linkify tmplB htmlEscapeString "((f://a))") ≠
      linkify tmplB htmlEscapeString "((f://a))" := by
  refine ⟨by decide, by decide⟩

/-! ## Helper lemmas: memoization (C4) -/

theorem countOcc_cons (x y : List Char) (l : List (List Char)) :
    countOcc x (y :: l) = (if y = x then 1 else 0) + countOcc x l := by
  by_cases h : y = x <;> simp [countOcc, List.filter_cons, h, Nat.add_comm]

theorem countOcc_pos_mem (x : List Char) (l : List (List Char))
    (h : 1 ≤ countOcc x l) : x ∈ l := by
  induction l with
  | nil => simp [countOcc] at h
  | cons y rest ih =>
    rw [countOcc_cons] at h
    by_cases hy : y = x
    · exact hy ▸ List.mem_cons_self y rest
    · rw [if_neg hy] at h
      exact List.mem_cons_of_mem _ (ih (by omega))

theorem mem_matchesOf (s : List Char) (q : List Char) :
    q ∈ matchesOf s ↔ Chunk.mat q ∈ scan s := by
  constructor
  · intro h
    obtain ⟨a, ha, hfa⟩ := List.mem_filterMap.mp h
    cases a with
    | lit cs => simp at hfa
    | mat m => simp at hfa; exact hfa ▸ ha
  · intro h
    exact List.mem_filterMap.mpr ⟨Chunk.mat q, h, rfl⟩

theorem lookupRepl_append_self (id v : List Char) (repls : List (List Char × List Char))
    (h : lookupRepl id repls = none) :
    lookupRepl id (repls ++ [(id, v)]) = some v := by
  induction repls with
  | nil => simp [lookupRepl]
  | cons kv rest ih =>
    obtain ⟨k, w⟩ := kv
    simp only [lookupRepl] at h
    by_cases hk : k = id
    · rw [if_pos hk] at h; exact absurd h (by simp)
    · rw [if_neg hk] at h
      simp only [List.cons_append, lookupRepl, if_neg hk]
      exact ih h

theorem lookupRepl_append_ne (id k v : List Char) (repls : List (List Char × List Char))
    (h : ¬ k = id) :
    lookupRepl id (repls ++ [(k, v)]) = lookupRepl id repls := by
  induction repls with
  | nil => simp [lookupRepl, h]
  | cons kv rest ih =>
    obtain ⟨k2, w⟩ := kv
    by_cases hk : k2 = id <;>
      simp only [List.cons_append, lookupRepl, hk, if_pos, if_neg, if_true, if_false] <;>
      simp [hk, ih]

/-- Invariant of the replacement pass for one successfully rendering match
string `p` whose placeholder id no other distinct match shares: `p` is
rendered at most once (exactly once when it occurs and is not yet
memoized), the final replacement list binds its id to the single rendering,
and every `p`-occurrence emits exactly the placeholder id as its piece. -/
theorem replacePass_memo_aux (tmpl : Link → Option String) (p out : List Char)
    (hrender : renderLink tmpl p = (out, false, true)) :
    ∀ (chunks : List Chunk) (repls : List (List Char × List Char)),
      (∀ q, Chunk.mat q ∈ chunks → mkId q = mkId p → q = p) →
      (countOcc p (replacePass tmpl chunks repls).2.2 =
        if Chunk.mat p ∈ chunks ∧ lookupRepl (mkId p) repls = none then 1 else 0) ∧
      (lookupRepl (mkId p) (replacePass tmpl chunks repls).2.1 =
        if Chunk.mat p ∈ chunks ∧ lookupRepl (mkId p) repls = none then some out
        else lookupRepl (mkId p) repls) ∧
      (∀ pr ∈ chunks.zip (replacePass tmpl chunks repls).1,
        pr.1 = Chunk.mat p → pr.2 = mkId p) := by
  intro chunks
  induction chunks with
  | nil =>
    intro repls hinj
    exact ⟨by simp [replacePass, countOcc], by simp [replacePass], by simp [replacePass]⟩
  | cons ch rest ih =>
    intro repls hinj
    have hinjr : ∀ q, Chunk.mat q ∈ rest → mkId q = mkId p → q = p :=
      fun q hm => hinj q (List.mem_cons_of_mem _ hm)
    cases ch with
    | lit cs =>
      obtain ⟨ih1, ih2, ih3⟩ := ih repls hinjr
      refine ⟨?_, ?_, ?_⟩
      · simpa [replacePass, List.mem_cons] using ih1
      · simpa [replacePass, List.mem_cons] using ih2
      · intro pr hpr hpm
        simp only [replacePass, List.zip_cons_cons, List.mem_cons] at hpr
        rcases hpr with rfl | hpr
        · exact absurd hpm (by simp)
        · exact ih3 pr hpr hpm
    | mat m =>
      by_cases hm : m = p
      · subst hm
        cases hl : lookupRepl (mkId m) repls with
        | some v =>
          obtain ⟨ih1, ih2, ih3⟩ := ih repls hinjr
          refine ⟨?_, ?_, ?_⟩
          · simp only [replacePass, hl]
            rw [ih1]
            simp [hl]
          · simp only [replacePass, hl]
            rw [ih2]
            simp [hl]
          · intro pr hpr hpm
            simp only [replacePass, hl, List.zip_cons_cons, List.mem_cons] at hpr
            rcases hpr with rfl | hpr
            · rfl
            · exact ih3 pr hpr hpm
        | none =>
          have hsetup : lookupRepl (mkId m) (repls ++ [(mkId m, out)]) = some out :=
            lookupRepl_append_self _ _ _ hl
          obtain ⟨ih1, ih2, ih3⟩ := ih (repls ++ [(mkId m, out)]) hinjr
          refine ⟨?_, ?_, ?_⟩
          · simp only [replacePass, hl, hrender]
            rw [countOcc_cons, ih1]
            simp [hsetup, hl, List.mem_cons]
          · simp only [replacePass, hl, hrender]
            rw [ih2]
            simp [hsetup, hl, List.mem_cons]
          · intro pr hpr hpm
            simp only [replacePass, hl, hrender, List.zip_cons_cons, List.mem_cons] at hpr
            rcases hpr with rfl | hpr
            · rfl
            · exact ih3 pr hpr hpm
      · have hne : ¬ mkId m = mkId p := fun h =>
          hm (hinj m (List.mem_cons_self _ _) h)
        have hmp : ¬ Chunk.mat p = Chunk.mat m := fun h => hm (Chunk.mat.inj h).symm
        cases hl : lookupRepl (mkId m) repls with
        | some v =>
          obtain ⟨ih1, ih2, ih3⟩ := ih repls hinjr
          refine ⟨?_, ?_, ?_⟩
          · simp only [replacePass, hl]
            rw [ih1]
            congr 1
            simp [List.mem_cons, hmp]
          · simp only [replacePass, hl]
            rw [ih2]
            congr 1
            simp [List.mem_cons, hmp]
          · intro pr hpr hpm
            simp only [replacePass, hl, List.zip_cons_cons, List.mem_cons] at hpr
            rcases hpr with rfl | hpr
            · exact absurd (Chunk.mat.inj hpm) hm
            · exact ih3 pr hpr hpm
        | none =>
          rcases hrm : renderLink tmpl m with ⟨l, err, inv⟩
          cases err with
          | true =>
            obtain ⟨ih1, ih2, ih3⟩ := ih repls hinjr
            refine ⟨?_, ?_, ?_⟩
            · simp only [replacePass, hl, hrm]
              have hlog : countOcc p (if inv = true then
                  m :: (replacePass tmpl rest repls).2.2
                  else (replacePass tmpl rest repls).2.2) =
                  countOcc p (replacePass tmpl rest repls).2.2 := by
                cases inv <;> simp [countOcc_cons, hm]
              rw [hlog, ih1]
              congr 1
              simp [List.mem_cons, hmp]
            · simp only [replacePass, hl, hrm]
              rw [ih2]
              congr 1
              simp [List.mem_cons, hmp]
            · intro pr hpr hpm
              simp only [replacePass, hl, hrm, List.zip_cons_cons, List.mem_cons] at hpr
              rcases hpr with rfl | hpr
              · exact absurd (Chunk.mat.inj hpm) hm
              · exact ih3 pr hpr hpm
          | false =>
            have hkeep : lookupRepl (mkId p) (repls ++ [(mkId m, l)]) =
                lookupRepl (mkId p) repls := lookupRepl_append_ne _ _ _ _ hne
            obtain ⟨ih1, ih2, ih3⟩ := ih (repls ++ [(mkId m, l)]) hinjr
            refine ⟨?_, ?_, ?_⟩
            · simp only [replacePass, hl, hrm]
              rw [countOcc_cons, ih1, hkeep]
              rw [if_neg hm]
              simp only [Nat.zero_add]
              congr 1
              simp [List.mem_cons, hmp]
            · simp only [replacePass, hl, hrm]
              rw [ih2, hkeep]
              congr 1
              simp [List.mem_cons, hmp]
            · intro pr hpr hpm
              simp only [replacePass, hl, hrm, List.zip_cons_cons, List.mem_cons] at hpr
              rcases hpr with rfl | hpr
              · exact absurd (Chunk.mat.inj hpm) hm
              · exact ih3 pr hpr hpm

/-- C4 (amended): within one linkify pass, a raw match string that occurs
two or more times, parses as a link, renders successfully, and whose
placeholder id is not shared by any distinct match string, has the render
capability invoked exactly once; every occurrence emits the same placeholder
id, which the replacement list binds to the single rendered output — so all
occurrences receive the identical substitution.  (A match that fails to
parse never invokes the capability; one that fails to render invokes it once
per occurrence: see the counterexample.) -/
theorem linkify_memoizes (tmpl : Link → Option String) (s : String) (p out : List Char)
    (hrender : renderLink tmpl p = (out, false, true))
    (hinj : ∀ q ∈ matchesOf s.data, mkId q = mkId p → q = p)
    (hmult : 2 ≤ countOcc p (matchesOf s.data)) :
    countOcc p (renderCalls tmpl s) = 1 ∧
    lookupRepl (mkId p) (replacePass tmpl (scan s.data) []).2.1 = some out ∧
    (∀ pr ∈ (scan s.data).zip (replacePass tmpl (scan s.data) []).1,
      pr.1 = Chunk.mat p → pr.2 = mkId p) := by
  have hmem : Chunk.mat p ∈ scan s.data :=
    (mem_matchesOf s.data p).mp (countOcc_pos_mem _ _ (by omega))
  have hinj2 : ∀ q, Chunk.mat q ∈ scan s.data → mkId q = mkId p → q = p :=
    fun q hq => hinj q ((mem_matchesOf s.data q).mpr hq)
  obtain ⟨h1, h2, h3⟩ := replacePass_memo_aux tmpl p out hrender (scan s.data) [] hinj2
  refine ⟨?_, ?_, h3⟩
  · rw [renderCalls, h1, if_pos ⟨hmem, rfl⟩]
  · rw [h2, if_pos ⟨hmem, rfl⟩]

set_option maxRecDepth 100000 in
/-- C4 (counterexample): the match `(( ))` occurs twice but fails to parse
(`errNotALink` — empty interior after trimming), so the render capability is
invoked zero times for it, not exactly once as claimed. -/
theorem linkify_unparsable_not_rendered :
    2 ≤ countOcc "(( ))".data (matchesOf "(( )) (( ))".data) ∧
    countOcc "(( ))".data (renderCalls tmplX "(( )) (( ))") = 0 :=
  ⟨by decide, by decide⟩

set_option maxRecDepth 100000 in
/-- C4 (witness): `((f://a))` occurs twice, renders successfully, and the
capability runs exactly once with its id bound to the single rendering. -/
theorem linkify_memoizes_witness :
    (renderLink tmplX "((f://a))".data = ("X".data, false, true) ∧
     2 ≤ countOcc "((f://a))".data (matchesOf "((f://a)) ((f://a))".data)) ∧
    (countOcc "((f://a))".data (renderCalls tmplX "((f://a)) ((f://a))") = 1 ∧
     lookupRepl (mkId "((f://a))".data)
       (replacePass tmplX (scan "((f://a)) ((f://a))".data) []).2.1 = some "X".data) :=
  ⟨⟨by decide, by decide⟩,
   ⟨(linkify_memoizes tmplX "((f://a)) ((f://a))" "((f://a))".data "X".data (by decide)
       (by decide) (by decide)).1,
    (linkify_memoizes tmplX "((f://a)) ((f://a))" "((f://a))".data "X".data (by decide)
       (by decide) (by decide)).2.1⟩⟩

/-! ## Claim theorems C7 and C9: `parseLink` -/

/-- C7 (amended): whenever `parseLink` succeeds, the `Link`'s label is
determined by the claimed priority order — explicit trimmed remainder, else
host concatenated with path, else the URL serialized to a string.  (The
label is NOT always non-empty: all three sources can be empty, see the
counterexample.) -/
theorem parseLink_label_priority (p : List Char) (link : Link)
    (h : parseLink p = Except.ok link) :
    link.label.data = labelPriorityRule p link.url := by
  simp only [parseLink] at h
  split at h
  · exact Except.noConfusion h
  · split at h
    · exact Except.noConfusion h
    · cases hurl : urlParse (trimWS (splitOnceSpace (trimWS ((p.drop 2).dropLast.dropLast))).1) with
      | none => rw [hurl] at h; exact Except.noConfusion h
      | some u =>
        rw [hurl] at h
        simp only [Except.ok.injEq] at h
        subst h
        simp only [labelPriorityRule, data_mk]
        by_cases h0 : (match (splitOnceSpace (trimWS ((p.drop 2).dropLast.dropLast))).2 with
            | some r => trimWS r
            | none => ([] : List Char)) = []
        · rw [h0]
          by_cases h1 : u.host.data ++ u.path.data = []
          · simp [h0, h1]
          · simp [h0, h1]
        · simp [h0]

/-- C7 (counterexample): `(( # ))` without spaces — the interior `#` parses
as a URL with empty host, path and serialization, so `parseLink` succeeds
with an EMPTY label, refuting the claim that the label is always non-empty
on success. -/
theorem parseLink_empty_label :
    parseLink "((#))".data = Except.ok ⟨emptyURL, ""⟩ := by decide

/-- C7 (witness): for `((f://host))` the label falls back to host ++ path =
`"host"`, matching the priority rule. -/
theorem parseLink_label_priority_witness :
    parseLink "((f://host))".data =
      Except.ok ⟨⟨"f", "", none, "host", "", "", false, "", "", ""⟩, "host"⟩ ∧
    ("host" : String).data =
      labelPriorityRule "((f://host))".data ⟨"f", "", none, "host", "", "", false, "", "", ""⟩ :=
  ⟨by decide,
   parseLink_label_priority "((f://host))".data
     ⟨⟨"f", "", none, "host", "", "", false, "", "", ""⟩, "host"⟩ (by decide)⟩

theorem splitOnceSpace_spec (q : List Char) :
    (splitOnceSpace q).1.contains ' ' = false ∧
    ((splitOnceSpace q).2 = none → q = (splitOnceSpace q).1) ∧
    (∀ r, (splitOnceSpace q).2 = some r → q = (splitOnceSpace q).1 ++ ' ' :: r) := by
  induction q with
  | nil => exact ⟨rfl, fun _ => rfl, fun r hr => by simp [splitOnceSpace] at hr⟩
  | cons c rest ih =>
    by_cases hc : c = ' '
    · subst hc
      refine ⟨rfl, fun hn => ?_, fun r hr => ?_⟩
      · simp [splitOnceSpace] at hn
      · simp only [splitOnceSpace, if_pos rfl] at hr ⊢
        obtain rfl : rest = r := Option.some.inj hr
        rfl
    · obtain ⟨ih1, ih2, ih3⟩ := ih
      have hsp : ¬ (' ' : Char) = c := fun h2 => hc h2.symm
      refine ⟨?_, fun hn => ?_, fun r hr => ?_⟩
      · simp only [splitOnceSpace, if_neg hc]
        simp [List.contains_cons, hsp]
        simpa using ih1
      · simp only [splitOnceSpace, if_neg hc] at hn ⊢
        rw [← ih2 hn]
      · simp only [splitOnceSpace, if_neg hc] at hr ⊢
        rw [List.cons_append, ← ih3 r hr]

/-- C9 (amended): when `parseLink` succeeds, the trimmed interior is split
into at most two parts AT THE FIRST SPACE (U+0020) only — not at a general
whitespace run: the URL token contains no space (but may contain other
whitespace, which then fails URL parsing, see the counterexample), joining
the parts with one space recovers the interior, and the optional remainder
becomes the label trimmed of surrounding whitespace only (its internal
whitespace preserved). -/
theorem parseLink_splits_on_first_space (p q : List Char) (link : Link)
    (h : parseLink p = Except.ok link)
    (hq : q = trimWS ((p.drop 2).dropLast.dropLast)) :
    urlParse (trimWS (splitOnceSpace q).1) = some link.url ∧
    (splitOnceSpace q).1.contains ' ' = false ∧
    ((splitOnceSpace q).2 = none → q = (splitOnceSpace q).1 ∧
      (link.label.data = link.url.host.data ++ link.url.path.data ∨
       link.label.data = (urlString link.url).data)) ∧
    (∀ r, (splitOnceSpace q).2 = some r → q = (splitOnceSpace q).1 ++ ' ' :: r ∧
      (trimWS r ≠ [] → link.label = String.mk (trimWS r))) := by
  subst hq
  obtain ⟨hs1, hs2, hs3⟩ := splitOnceSpace_spec (trimWS ((p.drop 2).dropLast.dropLast))
  simp only [parseLink] at h
  split at h
  · exact Except.noConfusion h
  · split at h
    · exact Except.noConfusion h
    · cases hurl : urlParse (trimWS (splitOnceSpace (trimWS ((p.drop 2).dropLast.dropLast))).1) with
      | none => rw [hurl] at h; exact Except.noConfusion h
      | some u =>
        rw [hurl] at h
        simp only [Except.ok.injEq] at h
        subst h
        refine ⟨rfl, hs1, fun hn => ⟨hs2 hn, ?_⟩, fun r hr => ⟨hs3 r hr, fun hne => ?_⟩⟩
        · rw [hn]
          simp only [data_mk]
          by_cases h1 : u.host.data ++ u.path.data = []
          · right; simp [hn, h1]
          · left; simp [hn, h1]
        · simp only [hr, data_mk]
          simp [hne]

/-- C9 (counterexample): in `((a\tb))` the interior `a\tb` contains a tab
but no space, so — contrary to the claim that the interior splits at the
first whitespace run — nothing is split: the whole `a\tb` becomes the URL
token, whose control character makes `url.Parse` fail. -/
theorem parseLink_tab_not_split :
    parseLink "((a\tb))".data = Except.error LinkErr.badURL := by decide

/-- C9 (witness): for `(( f://a b c ))` the interior `f://a b c` splits at
the FIRST space only — URL token `f://a`, remainder `b c` kept whole as the
label with its internal space preserved. -/
theorem parseLink_splits_on_first_space_witness :
    "f://a b c".data = (splitOnceSpace "f://a b c".data).1 ++ ' ' :: "b c".data ∧
    (⟨⟨"f", "", none, "a", "", "", false, "", "", ""⟩, "b c"⟩ : Link).label =
      String.mk (trimWS "b c".data) :=
  (fun H => ⟨H.1, H.2 (by decide)⟩)
    ((parseLink_splits_on_first_space "(( f://a b c ))".data "f://a b c".data
        ⟨⟨"f", "", none, "a", "", "", false, "", "", ""⟩, "b c"⟩ (by decide)
        (by decide)).2.2.2 "b c".data (by decide))

end Resify
